import Mathlib

/-!
Verification of the JSON helper layer of the greenlight API
(src/cmd/api/helpers.go, the complete variant with the size cap, strict
field checking and the single-value check).

The embedding models:
- request bodies as character lists (the bodies in question are ASCII, so
  one character stands for one byte);
- the stdlib JSON decoder as a recursive-descent scanner over the body,
  with a fuel bound standing for the stdlib nesting guard (the Go decoder
  surfaces exhaustion of that guard as a syntax error);
- http.MaxBytesReader as a truncation of the stream to the first
  1,048,576 bytes together with a flag saying whether reading past the
  end of the truncated stream means end-of-input or the byte cap: the
  reader hands out bytes while its budget lasts and fails any read after
  the budget is spent, so a body at least as long as the cap turns the
  read past the truncation point into a MaxBytesError, and a shorter
  body turns it into end-of-input;
- the decode destination as a Go struct pointer described by whether the
  pointer is valid (non-nil) and by the JSON names of its fields, each
  field of interface type. For that family the decoder can report an
  invalid-unmarshal error, a top-level type mismatch (a non-object,
  non-null document), or an unknown key; field names are matched exactly
  here, while the Go decoder would also accept case-insensitive matches;
- JSON numbers as integers (fraction and exponent syntax is left out;
  no claim concerns them), and string escaping covering quote and
  backslash (the Go encoder additionally escapes control and HTML
  characters; no claim concerns them);
- the response writer as a record of headers, an optional committed
  status, the bytes written, and a flag making writes fail, so that the
  code ignoring the result of Write is observable.
-/

namespace Greenlight

/-- Whitespace as in the JSON grammar: space, tab, line feed, carriage return. -/
def isWs (c : Char) : Bool := c == ' ' || c == '\t' || c == '\n' || c == '\r'

/-- Drop leading JSON whitespace, as the decoder does between tokens. -/
def dropWs : List Char → List Char
  | [] => []
  | c :: cs => if isWs c then dropWs cs else c :: cs

/-- The digit character of a value below ten. -/
def digChar (k : Nat) : Char := Char.ofNat (48 + k)

/-- Decimal digit characters, most significant first; the fuel makes the
recursion structural (any fuel above the digit count gives the digits). -/
def natCharsAux : Nat → Nat → List Char
  | 0, _ => []
  | f + 1, n => if n < 10 then [digChar n] else natCharsAux f (n / 10) ++ [digChar (n % 10)]

/-- Decimal digit characters of a natural number, most significant first. -/
def natChars (n : Nat) : List Char := natCharsAux (n + 1) n

/-- Decimal characters of an integer: optional minus sign, then digits. -/
def intChars (i : Int) : List Char :=
  if i < 0 then '-' :: natChars i.natAbs else natChars i.toNat

/-- A JSON document: the value grammar with integer numbers. -/
inductive Json where
  | null : Json
  | bool (b : Bool) : Json
  | num (n : Int) : Json
  | str (s : List Char) : Json
  | arr (xs : List Json) : Json
  | obj (ms : List (List Char × Json)) : Json

/-- `d` tab characters, the indentation MarshalIndent puts at depth `d`. -/
def tabs (d : Nat) : List Char := List.replicate d '\t'

/-- JSON escaping of one character: quote and backslash get a backslash. -/
def escChar (c : Char) : List Char :=
  if c == '"' then [ '\\' , '"' ] else if c == '\\' then [ '\\' , '\\' ] else [c]

/-- JSON escaping of a string body. -/
def escChars : List Char → List Char
  | [] => []
  | c :: cs => escChar c ++ escChars cs

mutual
/-- The output of json.MarshalIndent with empty line start and one tab
per level, for a value sitting at depth `d`. -/
def renderJson : Json → Nat → List Char
  | .null, _ => [ 'n' , 'u' , 'l' , 'l' ]
  | .bool true, _ => [ 't' , 'r' , 'u' , 'e' ]
  | .bool false, _ => [ 'f' , 'a' , 'l' , 's' , 'e' ]
  | .num n, _ => intChars n
  | .str s, _ => '"' :: (escChars s ++ [ '"' ])
  | .arr [], _ => [ '[' , ']' ]
  | .arr (x :: xs), d =>
      '[' :: '\n' :: (tabs (d + 1) ++ renderJson x (d + 1) ++ renderMoreA xs (d + 1)
        ++ '\n' :: (tabs d ++ [ ']' ]))
  | .obj [], _ => [ '{' , '}' ]
  | .obj (m :: ms), d =>
      '{' :: '\n' :: (tabs (d + 1) ++ renderMember m (d + 1) ++ renderMoreO ms (d + 1)
        ++ '\n' :: (tabs d ++ [ '}' ]))

/-- One object member: quoted key, colon, space, value. -/
def renderMember : (List Char × Json) → Nat → List Char
  | (k, v), d => '"' :: (escChars k ++ '"' :: ':' :: ' ' :: renderJson v d)

/-- Second and later array items, each behind a comma, newline and tabs. -/
def renderMoreA : List Json → Nat → List Char
  | [], _ => []
  | x :: xs, d => ',' :: '\n' :: (tabs d ++ renderJson x d ++ renderMoreA xs d)

/-- Second and later object members, each behind a comma, newline and tabs. -/
def renderMoreO : List (List Char × Json) → Nat → List Char
  | [], _ => []
  | m :: ms, d => ',' :: '\n' :: (tabs d ++ renderMember m d ++ renderMoreO ms d)
end

/-! ### The scanner underlying Decode -/

/-- Scanner failures: the stream ran out inside a value, or a character
violated the grammar with `rem` characters left unread. -/
inductive PErr where
  | ended : PErr
  | bad (rem : Nat) : PErr
deriving DecidableEq

/-- Undo one escape: the letters n, t, r map to their control characters,
anything else (quote, backslash, slash, ...) stands for itself. -/
def unesc (c : Char) : Char :=
  if c == 'n' then '\n' else if c == 't' then '\t' else if c == 'r' then '\r' else c

/-- Scan a string body after the opening quote, up to and including the
closing quote; returns the unescaped content and the remainder. -/
def scanStr : List Char → Except PErr (List Char × List Char)
  | [] => .error .ended
  | c :: cs =>
    if c == '"' then .ok ([], cs)
    else if c == '\\' then
      match cs with
      | [] => .error .ended
      | e :: cs2 =>
        match scanStr cs2 with
        | .ok (s, r) => .ok (unesc e :: s, r)
        | .error pe => .error pe
    else
      match scanStr cs with
      | .ok (s, r) => .ok (c :: s, r)
      | .error pe => .error pe

/-- Consume a run of digits, folding them onto `acc` in base ten. -/
def grabDigits (acc : Nat) : List Char → Nat × List Char
  | [] => (acc, [])
  | c :: cs => if c.isDigit then grabDigits (acc * 10 + (c.toNat - 48)) cs else (acc, c :: cs)

/-- Scan a number token: optional minus sign, then at least one digit. -/
def scanNum : List Char → Except PErr (Int × List Char)
  | [] => .error .ended
  | c :: cs =>
    if c == '-' then
      match cs with
      | [] => .error .ended
      | c2 :: cs2 =>
        if c2.isDigit then
          let p := grabDigits 0 (c2 :: cs2)
          .ok (-(p.1 : Int), p.2)
        else .error (.bad (c2 :: cs2).length)
    else if c.isDigit then
      let p := grabDigits 0 (c :: cs)
      .ok ((p.1 : Int), p.2)
    else .error (.bad (c :: cs).length)

/-- Require the given literal characters at the head of the stream. -/
def expectLit : List Char → List Char → Except PErr (List Char)
  | [], cs => .ok cs
  | _ :: _, [] => .error .ended
  | l :: ls, c :: cs => if c == l then expectLit ls cs else .error (.bad (c :: cs).length)

mutual
/-- Scan one JSON value. The fuel models the stdlib nesting guard; its
exhaustion surfaces as a syntax error, as in the Go decoder. -/
def parseVal : Nat → List Char → Except PErr (Json × List Char)
  | 0, cs => .error (.bad cs.length)
  | f + 1, cs0 =>
    match dropWs cs0 with
    | [] => .error .ended
    | c :: cs =>
      if c == 'n' then
        match expectLit [ 'u' , 'l' , 'l' ] cs with
        | .ok r => .ok (.null, r)
        | .error pe => .error pe
      else if c == 't' then
        match expectLit [ 'r' , 'u' , 'e' ] cs with
        | .ok r => .ok (.bool true, r)
        | .error pe => .error pe
      else if c == 'f' then
        match expectLit [ 'a' , 'l' , 's' , 'e' ] cs with
        | .ok r => .ok (.bool false, r)
        | .error pe => .error pe
      else if c == '"' then
        match scanStr cs with
        | .ok (s, r) => .ok (.str s, r)
        | .error pe => .error pe
      else if c == '{' then
        match dropWs cs with
        | [] => .error .ended
        | c2 :: cs2 =>
          if c2 == '}' then .ok (.obj [], cs2)
          else
            match parseMems f (c2 :: cs2) with
            | .ok (ms, r) => .ok (.obj ms, r)
            | .error pe => .error pe
      else if c == '[' then
        match dropWs cs with
        | [] => .error .ended
        | c2 :: cs2 =>
          if c2 == ']' then .ok (.arr [], cs2)
          else
            match parseItems f (c2 :: cs2) with
            | .ok (xs, r) => .ok (.arr xs, r)
            | .error pe => .error pe
      else if c == '-' || c.isDigit then
        match scanNum (c :: cs) with
        | .ok (n, r) => .ok (.num n, r)
        | .error pe => .error pe
      else .error (.bad (c :: cs).length)

/-- Scan the items of a nonempty array, including the closing bracket. -/
def parseItems : Nat → List Char → Except PErr (List Json × List Char)
  | 0, cs => .error (.bad cs.length)
  | f + 1, cs =>
    match parseVal f cs with
    | .error pe => .error pe
    | .ok (v, r) =>
      match dropWs r with
      | [] => .error .ended
      | c :: r2 =>
        if c == ',' then
          match parseItems f r2 with
          | .ok (xs, r3) => .ok (v :: xs, r3)
          | .error pe => .error pe
        else if c == ']' then .ok ([v], r2)
        else .error (.bad (c :: r2).length)

/-- Scan the members of a nonempty object, including the closing brace. -/
def parseMems : Nat → List Char → Except PErr (List (List Char × Json) × List Char)
  | 0, cs => .error (.bad cs.length)
  | f + 1, cs0 =>
    match dropWs cs0 with
    | [] => .error .ended
    | c :: cs =>
      if c == '"' then
        match scanStr cs with
        | .error pe => .error pe
        | .ok (k, r1) =>
          match dropWs r1 with
          | [] => .error .ended
          | c2 :: r2 =>
            if c2 == ':' then
              match parseVal f r2 with
              | .error pe => .error pe
              | .ok (v, r3) =>
                match dropWs r3 with
                | [] => .error .ended
                | c3 :: r4 =>
                  if c3 == ',' then
                    match parseMems f r4 with
                    | .ok (ms, r5) => .ok ((k, v) :: ms, r5)
                    | .error pe => .error pe
                  else if c3 == '}' then .ok ([(k, v)], r4)
                  else .error (.bad (c3 :: r4).length)
            else .error (.bad (c2 :: r2).length)
      else .error (.bad (c :: cs).length)
end

/-! ### The Decode error taxonomy and the triage of readJSON -/

/-- The errors the first Decode call can report, one constructor per error
family the triage in readJSON distinguishes. `rem` counts the characters
left unread when the error arose. -/
inductive DecErr where
  | synErr (rem : Nat) : DecErr
  | unexpectedEOF : DecErr
  | typeMismatch (rem : Nat) : DecErr
  | eof : DecErr
  | unknownField (f : List Char) : DecErr
  | maxBytes : DecErr
  | invalidUnmarshal : DecErr
deriving DecidableEq

/-- Lift a scanner failure into a Decode error: running out of input means
the byte cap when the stream was truncated by it, and an unexpected end of
the body otherwise. -/
def liftPErr (limited : Bool) : PErr → DecErr
  | .ended => if limited then .maxBytes else .unexpectedEOF
  | .bad rem => .synErr rem

/-- One Decode call on the remaining stream: skip whitespace, report EOF
(or the byte cap) on an exhausted stream, otherwise scan one value. -/
def decodeValue (fuel : Nat) (limited : Bool) (cs : List Char) :
    Except DecErr (Json × List Char) :=
  match dropWs cs with
  | [] => .error (if limited then .maxBytes else .eof)
  | c :: cs1 =>
    match parseVal fuel (c :: cs1) with
    | .ok (v, rest) => .ok (v, rest)
    | .error pe => .error (liftPErr limited pe)

/-- The decode destination: a Go struct pointer, described by whether the
pointer is valid (non-nil) and the JSON names of its fields, each field
of interface type. -/
structure DecodeTarget where
  validPtr : Bool
  fields : List (List Char)

/-- Whether a JSON key names some field of the destination (matched
exactly; the Go decoder would also accept case-insensitive matches). -/
def keyKnown (fields : List (List Char)) (k : List Char) : Bool :=
  fields.any (fun f => f == k)

/-- The first member key, in document order, naming no field. -/
def firstUnknownM (fields : List (List Char)) : List (List Char × Json) → Option (List Char)
  | [] => none
  | (k, _) :: ms => if keyKnown fields k then firstUnknownM fields ms else some k

/-- Unmarshal a scanned value into the destination: a nil target fails
before anything else, an object is checked for unknown keys because
DisallowUnknownFields is set, null is a no-op, and any other document is
a type mismatch against a struct. Returns the error, if any. -/
def unmarshalInto (dst : DecodeTarget) (v : Json) (rem : Nat) : Option DecErr :=
  if dst.validPtr = false then some .invalidUnmarshal
  else
    match v with
    | .obj ms => (firstUnknownM dst.fields ms).map .unknownField
    | .null => none
    | _ => some (.typeMismatch rem)

/-- One Decode call into the destination: scan a value, then unmarshal it. -/
def decodeInto (fuel : Nat) (limited : Bool) (dst : DecodeTarget) (cs : List Char) :
    Except DecErr (Json × List Char) :=
  match decodeValue fuel limited cs with
  | .error e => .error e
  | .ok (v, rest) =>
    match unmarshalInto dst v rest.length with
    | some e => .error e
    | none => .ok (v, rest)

/-- The size cap readJSON installs through http.MaxBytesReader
(the source spells the variable maxBites). -/
def maxBites : Nat := 1048576

/-- What readJSON produces: success, an error value for the caller, or an
aborted handling path (the Go code panics). -/
inductive ReadResult where
  | ok : ReadResult
  | err (msg : List Char) : ReadResult
  | panicked : ReadResult
deriving DecidableEq

/-- The Error() string of the unknown-field error of the stdlib decoder. -/
def unknownFieldErr (f : List Char) : List Char :=
  "json: unknown field ".data ++ '"' :: (f ++ [ '"' ])

/-- strings.TrimPrefix: drop `p` from the head of `s` when it is there. -/
def trimPref (s p : List Char) : List Char :=
  if p.isPrefixOf s then s.drop p.length else s

/-- The error triage of readJSON, one case per branch of its switch, in
source order. `capLen` is the length of the readable stream, from which
the character offsets in the messages are computed. -/
def triage (capLen : Nat) : DecErr → ReadResult
  | .synErr rem =>
      .err ("body contains badly-formed JSON (at character ".data
        ++ natChars (capLen - rem + 1) ++ [ ')' ])
  | .unexpectedEOF => .err "body contains badly-formed JSON".data
  | .typeMismatch rem =>
      .err ("body contains incorrect JSON\ttype at (at character ".data
        ++ natChars (capLen - rem + 1) ++ [ ')' ])
  | .eof => .err "body cannot be empty".data
  | .unknownField f =>
      .err ("body contains unknown key ".data
        ++ trimPref (unknownFieldErr f) "json: unknown field".data)
  | .maxBytes =>
      .err ("body cannot be larger than ".data ++ natChars maxBites ++ " bytes".data)
  | .invalidUnmarshal => .panicked

/-- The single-value message of the trailing-data check. -/
def singleValueMsg : List Char := "body can only contain a single json value".data

/-- The primary Decode call of readJSON: the body stream is capped at
maxBites bytes, and the flag records whether the cap truncates it. -/
def firstDecode (dst : DecodeTarget) (body : List Char) : Except DecErr (Json × List Char) :=
  decodeInto (maxBites + 1) (decide (maxBites ≤ body.length)) dst (body.take maxBites)

/-- The second Decode call of readJSON, on what the first one left. -/
def secondDecode (body rest : List Char) : Except DecErr (Json × List Char) :=
  decodeValue (maxBites + 1) (decide (maxBites ≤ body.length)) rest

/-- readJSON: decode one value into the destination, triaging any failure;
then decode once more and demand end-of-input, rejecting trailing data. -/
def readJSON (dst : DecodeTarget) (body : List Char) : ReadResult :=
  match firstDecode dst body with
  | .error e => triage (min body.length maxBites) e
  | .ok (_, rest) =>
    match secondDecode body rest with
    | .error .eof => .ok
    | _ => .err singleValueMsg

/-! ### readIDParam -/

/-- Base-ten value of a digit run. -/
def digitsNat (s : List Char) : Nat :=
  s.foldl (fun a c => a * 10 + (c.toNat - 48)) 0

/-- strconv.ParseUint at base ten and 64 bits: all characters must be
digits, at least one, and the value must fit (the per-digit overflow
cutoffs of the stdlib amount to this final range check). -/
def parseUint64 (s : List Char) : Option Nat :=
  if s.isEmpty then none
  else if s.all Char.isDigit then
    if digitsNat s ≤ 2 ^ 64 - 1 then some (digitsNat s) else none
  else none

/-- strconv.ParseInt at base ten and 64 bits: optional sign, then the
unsigned parse, then the signed 64-bit range cutoffs. -/
def parseInt64 (s : List Char) : Option Int :=
  match s with
  | [] => none
  | c :: rest =>
    let neg := c == '-'
    let digits := if c == '+' || c == '-' then rest else s
    match parseUint64 digits with
    | none => none
    | some un =>
      if !neg && 2 ^ 63 ≤ un then none
      else if neg && 2 ^ 63 < un then none
      else some (if neg then -(un : Int) else (un : Int))

/-- The message readIDParam fails with. -/
def invalidIdMsg : List Char := "invalid id parameter".data

/-- readIDParam: parse the id path parameter (the router hands back the
empty string for an absent parameter) and reject errors and negatives. -/
def readIDParam (idParam : String) : Except (List Char) Int :=
  match parseInt64 idParam.data with
  | none => .error invalidIdMsg
  | some id => if id < 0 then .error invalidIdMsg else .ok id

/-! ### writeJSON: the envelope encoder and the response writer -/

/-- A value a handler can put into an envelope: a JSON-serializable value,
or one json.Marshal rejects (a channel or function value, say). -/
inductive GoVal where
  | js (v : Json) : GoVal
  | unencodable : GoVal

/-- The envelope map: string keys to arbitrary values. Keys are unique,
as in a Go map. -/
abbrev Envelope := List (List Char × GoVal)

/-- The JSON pairs of an envelope, or none when some value is one the
encoder rejects. -/
def envPairs : Envelope → Option (List (List Char × Json))
  | [] => some []
  | (k, .js v) :: tl =>
    match envPairs tl with
    | some ps => some ((k, v) :: ps)
    | none => none
  | (_, .unencodable) :: _ => none

/-- Byte-wise lexicographic order on keys, as sort.Strings uses. -/
def leChars : List Char → List Char → Bool
  | [], _ => true
  | _ :: _, [] => false
  | a :: as, b :: bs =>
    if a.toNat < b.toNat then true
    else if b.toNat < a.toNat then false
    else leChars as bs

/-- Insert a pair into a key-sorted list of pairs. -/
def insertPair (p : List Char × Json) : List (List Char × Json) → List (List Char × Json)
  | [] => [p]
  | q :: qs => if leChars p.1 q.1 then p :: q :: qs else q :: insertPair p qs

/-- Sort pairs by key, as the encoder does for map keys. -/
def sortPairs : List (List Char × Json) → List (List Char × Json)
  | [] => []
  | p :: ps => insertPair p (sortPairs ps)

/-- The message of a serialization failure. -/
def marshalErrMsg : List Char := "json: unsupported type".data

/-- json.MarshalIndent of an envelope with empty line start and one tab:
sort the keys, then render; fails when some value is unencodable. -/
def marshalEnvelope (e : Envelope) : Option (List Char) :=
  match envPairs e with
  | none => none
  | some ps => some (renderJson (Json.obj (sortPairs ps)) 0)

/-- The header map of a response: keys to value lists, as http.Header. -/
abbrev Headers := List (String × List String)

/-- Map assignment on a header map, as in the copy loop of writeJSON. -/
def setH : Headers → String → List String → Headers
  | [], k, v => [(k, v)]
  | (k0, v0) :: t, k, v => if k0 == k then (k, v) :: t else (k0, v0) :: setH t k v

/-- Header lookup. -/
def getH : Headers → String → Option (List String)
  | [], _ => none
  | (k0, v0) :: t, k => if k0 == k then some v0 else getH t k

/-- The copy loop of writeJSON: assign every supplied header in turn. -/
def applyHdrs (h : Headers) (hdrs : Headers) : Headers :=
  hdrs.foldl (fun acc kv => setH acc kv.1 kv.2) h

/-- The response writer: its header map, the committed status (none until
WriteHeader runs; a second WriteHeader is ignored), the bytes written so
far, and a flag making body writes fail, so that the code ignoring the
result of Write is observable. -/
structure RespWriter where
  headers : Headers
  status : Option Nat
  body : List Char
  failing : Bool

/-- writeJSON: serialize the envelope (returning the failure before
touching the writer), append a newline, copy the caller headers, set the
content type, write the status, write the body ignoring its outcome. -/
def writeJSON (w : RespWriter) (status : Nat) (data : Envelope) (hdrs : Headers) :
    RespWriter × Option (List Char) :=
  match marshalEnvelope data with
  | none => (w, some marshalErrMsg)
  | some js0 =>
    let js := js0 ++ [ '\n' ]
    let w1 : RespWriter := { w with headers := applyHdrs w.headers hdrs }
    let w2 : RespWriter :=
      { w1 with headers := setH w1.headers "Content-Type" ["application/json"] }
    let w3 : RespWriter := if w2.status.isSome then w2 else { w2 with status := some status }
    let w4 : RespWriter := if w3.failing then w3 else { w3 with body := w3.body ++ js }
    (w4, none)

/-- A generic JSON parser over a byte stream: one value, then nothing but
whitespace. Stands for the decoder a client would run on the response. -/
def jsonParse (cs : List Char) : Option Json :=
  match decodeValue (cs.length + 1) false cs with
  | .ok (v, rest) => if dropWs rest = [] then some v else none
  | .error _ => none

/-! ### Classification lemmas about the decode pipeline -/

/-- Dropping whitespace ignores a whitespace-only front. -/
theorem dropWs_ws_append (pre : List Char) (h : ∀ c ∈ pre, isWs c = true) :
    ∀ cs : List Char, dropWs (pre ++ cs) = dropWs cs := by
  induction pre with
  | nil => intro cs; rfl
  | cons c t ih =>
    intro cs
    have hc : isWs c = true := h c (by simp)
    simp only [List.cons_append, dropWs, hc, if_true]
    exact ih (fun x hx => h x (by simp [hx])) cs

/-- A Decode call reports end-of-input exactly on a whitespace-only stream
that the byte cap did not truncate. -/
theorem decodeValue_eof_iff (fuel : Nat) (lim : Bool) (cs : List Char) :
    decodeValue fuel lim cs = .error .eof ↔ (lim = false ∧ dropWs cs = []) := by
  constructor
  · intro h
    unfold decodeValue at h
    split at h
    · rename_i hd
      cases lim with
      | false => exact ⟨rfl, hd⟩
      | true => simp at h
    · split at h
      · simp at h
      · rename_i pe _
        cases pe with
        | ended => cases lim <;> simp [liftPErr] at h
        | bad rem => simp [liftPErr] at h
  · rintro ⟨hl, hd⟩
    unfold decodeValue
    rw [hd, hl]
    rfl

/-- The scanner never reports an invalid destination. -/
theorem decodeValue_ne_invalid (fuel : Nat) (lim : Bool) (cs : List Char) :
    decodeValue fuel lim cs ≠ .error .invalidUnmarshal := by
  intro h
  unfold decodeValue at h
  split at h
  · cases lim <;> simp at h
  · split at h
    · simp at h
    · rename_i pe _
      cases pe with
      | ended => cases lim <;> simp [liftPErr] at h
      | bad rem => simp [liftPErr] at h

/-- Unmarshalling reports an invalid destination only for a nil pointer. -/
theorem unmarshalInto_invalid (dst : DecodeTarget) (v : Json) (n : Nat)
    (h : unmarshalInto dst v n = some .invalidUnmarshal) : dst.validPtr = false := by
  by_cases hv : dst.validPtr = false
  · exact hv
  · unfold unmarshalInto at h
    rw [if_neg hv] at h
    cases v with
    | obj ms =>
      cases hfu : firstUnknownM dst.fields ms <;> simp [hfu] at h
    | null => simp at h
    | bool b => simp at h
    | num k => simp at h
    | str s => simp at h
    | arr xs => simp at h

/-- A Decode call into a destination reports an invalid destination only
for a nil pointer. -/
theorem decodeInto_invalid (fuel : Nat) (lim : Bool) (dst : DecodeTarget) (cs : List Char)
    (h : decodeInto fuel lim dst cs = .error .invalidUnmarshal) : dst.validPtr = false := by
  unfold decodeInto at h
  split at h
  · rename_i e he
    simp only [Except.error.injEq] at h
    exact absurd (h ▸ he) (decodeValue_ne_invalid _ _ _)
  · split at h
    · rename_i e he
      simp only [Except.error.injEq] at h
      exact unmarshalInto_invalid _ _ _ (h ▸ he)
    · simp at h

/-- The triage aborts the handling path exactly on an invalid destination. -/
theorem triage_panicked_iff (n : Nat) (e : DecErr) :
    triage n e = .panicked ↔ e = .invalidUnmarshal := by
  cases e <;> simp [triage]

/-- The triage never reports success. -/
theorem triage_ne_ok (n : Nat) (e : DecErr) : triage n e ≠ .ok := by
  cases e <;> simp [triage]

/-- Every triage outcome other than the invalid-destination abort is an
error value. -/
theorem triage_err_of_ne_invalid (n : Nat) (e : DecErr) (h : e ≠ .invalidUnmarshal) :
    ∃ m, triage n e = .err m := by
  cases e <;> first
    | exact absurd rfl h
    | exact ⟨_, rfl⟩

/-! ### C1: the single-value check -/

/-- C1: when the primary decode succeeds and leaves `rest`, readJSON fails
with the single-value condition exactly when non-whitespace content
remains, and succeeds when only whitespace remains and the body is below
the byte cap. -/
theorem c1_single_value_check (dst : DecodeTarget) (body : List Char) (v : Json)
    (rest : List Char) (h1 : firstDecode dst body = .ok (v, rest)) :
    (dropWs rest ≠ [] → readJSON dst body = .err singleValueMsg) ∧
    (dropWs rest = [] → body.length < maxBites → readJSON dst body = .ok) := by
  constructor
  · intro h2
    have hne : secondDecode body rest ≠ .error .eof := by
      intro he
      exact h2 ((decodeValue_eof_iff _ _ _).mp he).2
    unfold readJSON
    rw [h1]
    cases hs : secondDecode body rest with
    | ok p => simp [hs]
    | error e =>
      cases e with
      | eof => exact absurd hs hne
      | synErr rem => simp [hs]
      | unexpectedEOF => simp [hs]
      | typeMismatch rem => simp [hs]
      | unknownField f => simp [hs]
      | maxBytes => simp [hs]
      | invalidUnmarshal => simp [hs]
  · intro h2 h3
    have hlim : decide (maxBites ≤ body.length) = false := decide_eq_false (by omega)
    have hs : secondDecode body rest = .error .eof := by
      unfold secondDecode
      rw [hlim]
      exact (decodeValue_eof_iff _ _ _).mpr ⟨rfl, h2⟩
    unfold readJSON
    rw [h1]
    simp [hs]

/-- C1 at the two-document body of the spec example and at a body with
only trailing whitespace. -/
theorem c1_single_value_check_witness :
    readJSON ⟨true, []⟩ ('{' :: '}' :: '{' :: [ '}' ]) = .err singleValueMsg ∧
    readJSON ⟨true, []⟩ (' ' :: '{' :: '}' :: [ ' ' ]) = .ok :=
  ⟨(c1_single_value_check ⟨true, []⟩ ('{' :: '}' :: '{' :: [ '}' ]) (.obj [])
      ('{' :: [ '}' ]) rfl).1 (by decide),
   (c1_single_value_check ⟨true, []⟩ (' ' :: '{' :: '}' :: [ ' ' ]) (.obj [])
      [ ' ' ] rfl).2 (by decide) (by decide)⟩

/-! ### C2: the byte cap -/

/-- C2 (amended): a body longer than the 1,048,576-byte cap never decodes
successfully, and whenever the primary decode runs into the cap the error
reports the configured limit. -/
theorem c2_size_cap :
    (∀ (dst : DecodeTarget) (body : List Char), maxBites < body.length →
       readJSON dst body ≠ .ok) ∧
    (∀ (dst : DecodeTarget) (body : List Char), firstDecode dst body = .error .maxBytes →
       readJSON dst body
         = .err ("body cannot be larger than ".data ++ natChars maxBites ++ " bytes".data)) := by
  constructor
  · intro dst body h hok
    unfold readJSON at hok
    split at hok
    · exact triage_ne_ok _ _ hok
    · split at hok
      · rename_i hs
        unfold secondDecode at hs
        have hlim := ((decodeValue_eof_iff _ _ _).mp hs).1
        exact absurd (Nat.le_of_lt h) (of_decide_eq_false hlim)
      · simp at hok
  · intro dst body h
    unfold readJSON
    rw [h]
    rfl

/-- C2 counterexample: a body two bytes over the cap whose first value is
tiny fails with the single-value error, not with the message reporting
the configured limit. -/
theorem c2_size_cap_counterexample :
    maxBites < ('{' :: '}' :: List.replicate 1048576 'x').length ∧
    readJSON ⟨true, []⟩ ('{' :: '}' :: List.replicate 1048576 'x') = .err singleValueMsg ∧
    singleValueMsg
      ≠ ("body cannot be larger than ".data ++ natChars maxBites ++ " bytes".data) := by
  refine ⟨?_, rfl, by decide⟩
  rw [List.length_cons, List.length_cons, List.length_replicate]
  decide

/-- C2 at a concrete oversized body. -/
theorem c2_size_cap_witness :
    readJSON ⟨true, []⟩ ('[' :: List.replicate 1048576 '0') ≠ .ok :=
  c2_size_cap.1 ⟨true, []⟩ _
    (by rw [List.length_cons, List.length_replicate]; decide)

/-! ### C3: unknown fields -/

/-- C3: when the scanned document is an object holding a key naming no
field of the destination, readJSON fails with the unknown-key message
naming that key. -/
theorem c3_unknown_field (dst : DecodeTarget) (body : List Char)
    (ms : List (List Char × Json)) (rest : List Char) (f : List Char)
    (hvalid : dst.validPtr = true)
    (hscan : decodeValue (maxBites + 1) (decide (maxBites ≤ body.length))
        (body.take maxBites) = .ok (.obj ms, rest))
    (hunk : firstUnknownM dst.fields ms = some f) :
    readJSON dst body = .err ("body contains unknown key  \"".data ++ f ++ [ '"' ]) := by
  have hptr : ¬dst.validPtr = false := by simp [hvalid]
  unfold readJSON firstDecode decodeInto
  rw [hscan]
  simp only [unmarshalInto, if_neg hptr, hunk, Option.map_some]
  rfl

/-- C3 at the spec example: an extra field against a destination knowing
only the title field. -/
theorem c3_unknown_field_witness :
    readJSON ⟨true, [ [ 't' , 'i' , 't' , 'l' , 'e' ] ]⟩
      ('{' :: '"' :: 'e' :: 'x' :: 't' :: 'r' :: 'a' :: '"' :: ':' :: '1' :: [ '}' ])
      = .err ("body contains unknown key  \"".data
          ++ [ 'e' , 'x' , 't' , 'r' , 'a' ] ++ [ '"' ]) :=
  c3_unknown_field ⟨true, [ [ 't' , 'i' , 't' , 'l' , 'e' ] ]⟩ _
    [ ( [ 'e' , 'x' , 't' , 'r' , 'a' ] , Json.num 1 ) ] [] [ 'e' , 'x' , 't' , 'r' , 'a' ]
    rfl rfl rfl

/-! ### C4: the empty body -/

/-- C4: an empty body fails with the distinct cannot-be-empty condition,
whatever the destination, and that message differs from the generic
malformed-JSON one. -/
theorem c4_empty_body (dst : DecodeTarget) :
    readJSON dst [] = .err "body cannot be empty".data ∧
    "body cannot be empty".data ≠ "body contains badly-formed JSON".data :=
  ⟨rfl, by decide⟩

/-! ### C5: the invalid destination aborts, everything else returns -/

/-- C5: a nil destination makes readJSON abort the handling path whenever
the decoder gets as far as unmarshalling (so the invalid-unmarshal error
is the one reported); a valid destination never aborts; and every decode
failure other than the invalid destination comes back as an error value. -/
theorem c5_invalid_target :
    (∀ (dst : DecodeTarget) (body : List Char) (v : Json) (rest : List Char),
       dst.validPtr = false →
       decodeValue (maxBites + 1) (decide (maxBites ≤ body.length))
           (body.take maxBites) = .ok (v, rest) →
       readJSON dst body = .panicked) ∧
    (∀ (dst : DecodeTarget) (body : List Char), dst.validPtr = true →
       readJSON dst body ≠ .panicked) ∧
    (∀ (dst : DecodeTarget) (body : List Char) (e : DecErr),
       firstDecode dst body = .error e → e ≠ .invalidUnmarshal →
       ∃ m, readJSON dst body = .err m) := by
  refine ⟨?_, ?_, ?_⟩
  · intro dst body v rest hvalid hscan
    unfold readJSON firstDecode decodeInto
    rw [hscan]
    simp [unmarshalInto, hvalid, triage]
  · intro dst body hvalid hpan
    unfold readJSON at hpan
    split at hpan
    · rename_i e he
      rw [triage_panicked_iff] at hpan
      subst hpan
      unfold firstDecode at he
      have := decodeInto_invalid _ _ _ _ he
      simp [hvalid] at this
    · split at hpan
      · simp at hpan
      · simp at hpan
  · intro dst body e he hne
    unfold readJSON
    rw [he]
    exact triage_err_of_ne_invalid _ _ hne

/-- C5 at a nil destination with a well-formed body. -/
theorem c5_invalid_target_witness :
    readJSON ⟨false, []⟩ ('{' :: [ '}' ]) = .panicked :=
  c5_invalid_target.1 ⟨false, []⟩ ('{' :: [ '}' ]) (.obj []) [] rfl rfl

/-! ### C6: readIDParam -/

/-- A digit character is neither sign character. -/
theorem digit_not_sign {c : Char} (h : c.isDigit = true) :
    (c == '+') = false ∧ (c == '-') = false := by
  constructor <;> refine beq_eq_false_iff_ne.mpr ?_ <;> (intro he; rw [he] at h) <;>
    exact absurd h (by decide)

/-- C6: readIDParam accepts every digit string whose value fits below
2^63 (zero included), returning that value; it accepts the example 42,
and rejects a negative, a non-numeric and an absent parameter (the router
hands back the empty string for an absent one) with the invalid-id
condition; and a minus sign before a nonzero digit string is always
rejected. -/
theorem c6_read_id_param :
    (∀ s : List Char, s ≠ [] → s.all Char.isDigit = true → digitsNat s < 2 ^ 63 →
       readIDParam (String.mk s) = .ok (digitsNat s)) ∧
    (readIDParam "42" = .ok 42 ∧ readIDParam "0" = .ok 0) ∧
    (readIDParam "-1" = .error invalidIdMsg ∧ readIDParam "abc" = .error invalidIdMsg ∧
       readIDParam "" = .error invalidIdMsg) ∧
    (∀ s : List Char, s.all Char.isDigit = true → 0 < digitsNat s →
       readIDParam (String.mk ('-' :: s)) = .error invalidIdMsg) := by
  refine ⟨?_, ⟨rfl, rfl⟩, ⟨rfl, rfl, rfl⟩, ?_⟩
  · intro s hne hdig hlt
    cases s with
    | nil => exact absurd rfl hne
    | cons c rest =>
      have hc : c.isDigit = true ∧ rest.all Char.isDigit = true := by
        simpa [List.all_cons, Bool.and_eq_true] using hdig
      obtain ⟨hplus, hminus⟩ := digit_not_sign hc.1
      have h64 : digitsNat (c :: rest) ≤ 2 ^ 64 - 1 := by omega
      have h63 : decide (2 ^ 63 ≤ digitsNat (c :: rest)) = false := decide_eq_false (by omega)
      have hnonneg : ¬((digitsNat (c :: rest) : Int) < 0) := by
        simp
      simp only [readIDParam, parseInt64, parseUint64, String.data, hplus, hminus,
        Bool.or_self, Bool.false_or, if_neg (by simp : ¬('+' :: rest).isEmpty = true)]
      simp only [List.isEmpty_cons, Bool.false_eq_true, if_false, hdig, if_true,
        if_pos h64, h63, Bool.not_false, Bool.true_and, Bool.false_and, if_false,
        Bool.and_self, if_neg hnonneg]
  · intro s hdig hpos
    cases s with
    | nil => simp [digitsNat] at hpos
    | cons c rest =>
      simp only [readIDParam, parseInt64, String.data]
      by_cases h64 : digitsNat (c :: rest) ≤ 18446744073709551615
      · have hu : parseUint64 (c :: rest) = some (digitsNat (c :: rest)) := by
          simp [parseUint64, hdig, h64]
        by_cases h63 : 9223372036854775808 < digitsNat (c :: rest)
        · simp [hu, h63]
        · have hneg : ((-(digitsNat (c :: rest) : Int)) < 0) := by omega
          simp [hu, h63, hneg]
      · have hu : parseUint64 (c :: rest) = none := by
          simp [parseUint64, hdig, h64]
        simp [hu]

/-- C6 at the value 7 and at minus 7. -/
theorem c6_read_id_param_witness :
    readIDParam (String.mk [ '7' ]) = .ok (digitsNat [ '7' ]) ∧
    readIDParam (String.mk ('-' :: [ '7' ])) = .error invalidIdMsg :=
  ⟨c6_read_id_param.1 [ '7' ] (by decide) (by decide) (by decide),
   c6_read_id_param.2.2.2 [ '7' ] (by decide) (by decide)⟩

/-! ### Header-map lemmas for writeJSON -/

/-- Looking up the key just assigned gives the assigned value. -/
theorem getH_setH_self (h : Headers) (k : String) (v : List String) :
    getH (setH h k v) k = some v := by
  induction h with
  | nil => simp [setH, getH]
  | cons p t ih =>
    obtain ⟨k0, v0⟩ := p
    by_cases hk : (k0 == k) = true
    · simp [setH, getH, hk]
    · simp only [Bool.not_eq_true] at hk
      simp [setH, getH, hk, ih]

/-- Assigning one key leaves the lookup of any other key unchanged. -/
theorem getH_setH_ne (h : Headers) (k k2 : String) (v : List String)
    (hne : (k2 == k) = false) : getH (setH h k2 v) k = getH h k := by
  induction h with
  | nil => simp [setH, getH, hne]
  | cons p t ih =>
    obtain ⟨k0, v0⟩ := p
    by_cases hk : (k0 == k2) = true
    · have hk0 : (k0 == k) = false := by
        have : k0 = k2 := by simpa using hk
        simpa [this] using hne
      simp [setH, getH, hk, hne, hk0]
    · simp only [Bool.not_eq_true] at hk
      simp [setH, getH, hk, ih]

/-- The copy loop leaves alone every key it never assigns. -/
theorem getH_applyHdrs_notmem (hdrs : Headers) (h : Headers) (k : String)
    (hk : ∀ kv ∈ hdrs, (kv.1 == k) = false) :
    getH (applyHdrs h hdrs) k = getH h k := by
  induction hdrs generalizing h with
  | nil => rfl
  | cons p t ih =>
    have h1 : applyHdrs h (p :: t) = applyHdrs (setH h p.1 p.2) t := rfl
    rw [h1, ih (setH h p.1 p.2) (fun kv hkv => hk kv (by simp [hkv]))]
    exact getH_setH_ne _ _ _ _ (hk p (by simp))

/-- With pairwise distinct keys, the copy loop makes every supplied
header retrievable as given. -/
theorem getH_applyHdrs_mem (hdrs : Headers) (h : Headers) (k : String) (v : List String)
    (hnd : (hdrs.map Prod.fst).Nodup) (hmem : (k, v) ∈ hdrs) :
    getH (applyHdrs h hdrs) k = some v := by
  induction hdrs generalizing h with
  | nil => exact absurd hmem (List.not_mem_nil _)
  | cons p t ih =>
    simp only [List.map_cons, List.nodup_cons] at hnd
    have h1 : applyHdrs h (p :: t) = applyHdrs (setH h p.1 p.2) t := rfl
    rw [h1]
    rcases List.mem_cons.mp hmem with heq | hmem
    · subst heq
      rw [getH_applyHdrs_notmem t (setH h k v) k ?_]
      · exact getH_setH_self _ _ _
      · intro kv hkv
        refine beq_eq_false_iff_ne.mpr ?_
        intro he
        apply hnd.1
        show k ∈ List.map Prod.fst t
        exact he ▸ List.mem_map_of_mem Prod.fst hkv
    · exact ih (setH h p.1 p.2) hnd.2 hmem

/-! ### C7: serialization failures come first -/

/-- C7: when serialization of the envelope fails, writeJSON returns the
failure with the writer untouched; otherwise it writes the full response:
no error, the status committed, the body appended with its newline, and
the JSON content type set. -/
theorem c7_serialize_first :
    (∀ (w : RespWriter) (status : Nat) (data : Envelope) (hdrs : Headers),
       marshalEnvelope data = none →
       writeJSON w status data hdrs = (w, some marshalErrMsg)) ∧
    (∀ (w : RespWriter) (status : Nat) (data : Envelope) (hdrs : Headers) (js : List Char),
       marshalEnvelope data = some js → w.status = none → w.failing = false →
       (writeJSON w status data hdrs).2 = none ∧
       (writeJSON w status data hdrs).1.status = some status ∧
       (writeJSON w status data hdrs).1.body = w.body ++ (js ++ [ '\n' ]) ∧
       getH (writeJSON w status data hdrs).1.headers "Content-Type"
         = some ["application/json"]) := by
  constructor
  · intro w status data hdrs h
    unfold writeJSON
    rw [h]
  · intro w status data hdrs js h hstat hfail
    unfold writeJSON
    rw [h]
    simp [hstat, hfail, getH_setH_self]

/-- C7 at an envelope holding an unencodable value and at the empty
envelope on a fresh writer. -/
theorem c7_serialize_first_witness :
    writeJSON ⟨[], none, [], false⟩ 200 [ ( [ 'x' ] , GoVal.unencodable ) ] []
      = (⟨[], none, [], false⟩, some marshalErrMsg) ∧
    (writeJSON ⟨[], none, [], false⟩ 201 [] []).1.status = some 201 :=
  ⟨c7_serialize_first.1 ⟨[], none, [], false⟩ 200 [ ( [ 'x' ] , GoVal.unencodable ) ] [] rfl,
   (c7_serialize_first.2 ⟨[], none, [], false⟩ 201 [] [] [ '{' , '}' ] rfl rfl rfl).2.1⟩

/-! ### C8: content type always wins, other headers pass through -/

/-- C8: whenever a response is produced, its content type is
application/json, even against a caller-supplied Content-Type entry; and
every caller-supplied header under any other key (keys pairwise
distinct, as in a Go map) appears in the response as given. -/
theorem c8_content_type (w : RespWriter) (status : Nat) (data : Envelope)
    (hdrs : Headers) (js : List Char) (h : marshalEnvelope data = some js) :
    getH (writeJSON w status data hdrs).1.headers "Content-Type"
      = some ["application/json"] ∧
    (∀ (k : String) (v : List String), (hdrs.map Prod.fst).Nodup → (k, v) ∈ hdrs →
       (k == "Content-Type") = false →
       getH (writeJSON w status data hdrs).1.headers k = some v) := by
  have hw : (writeJSON w status data hdrs).1.headers
      = setH (applyHdrs w.headers hdrs) "Content-Type" ["application/json"] := by
    unfold writeJSON
    rw [h]
    cases hs : w.status.isSome <;> cases hf : w.failing <;> simp [hs, hf]
  constructor
  · rw [hw]
    exact getH_setH_self _ _ _
  · intro k v hnd hmem hne
    rw [hw, getH_setH_ne _ _ _ _
      (beq_eq_false_iff_ne.mpr (Ne.symm (beq_eq_false_iff_ne.mp hne)))]
    exact getH_applyHdrs_mem hdrs w.headers k v hnd hmem

/-- C8 at a caller map that tries to override the content type and also
carries an unrelated header. -/
theorem c8_content_type_witness :
    getH (writeJSON ⟨[], none, [], false⟩ 200 []
        [("Content-Type", ["text/html"]), ("X-Request-Id", ["7"])]).1.headers
      "Content-Type" = some ["application/json"] ∧
    getH (writeJSON ⟨[], none, [], false⟩ 200 []
        [("Content-Type", ["text/html"]), ("X-Request-Id", ["7"])]).1.headers
      "X-Request-Id" = some ["7"] := by
  have hc := c8_content_type ⟨[], none, [], false⟩ 200 []
    [("Content-Type", ["text/html"]), ("X-Request-Id", ["7"])] [ '{' , '}' ] rfl
  exact ⟨hc.1, hc.2 "X-Request-Id" ["7"] (by decide) (by simp) (by decide)⟩

/-! ### C10: a nil result does not mean delivery -/

/-- C10: writeJSON reports success whenever serialization succeeds, for
every status and header map; and a failing underlying writer still gets
a success report while no body byte reaches it, so a nil result does not
guarantee delivery. -/
theorem c10_write_outcome_ignored :
    (∀ (w : RespWriter) (status : Nat) (data : Envelope) (hdrs : Headers) (js : List Char),
       marshalEnvelope data = some js → (writeJSON w status data hdrs).2 = none) ∧
    (∃ (w : RespWriter) (status : Nat) (data : Envelope) (hdrs : Headers),
       w.failing = true ∧ (writeJSON w status data hdrs).2 = none ∧
       (writeJSON w status data hdrs).1.body = w.body) := by
  constructor
  · intro w status data hdrs js h
    unfold writeJSON
    rw [h]
  · exact ⟨⟨[], none, [], true⟩, 200, [], [], rfl, rfl, rfl⟩

/-- C10 at the empty envelope on a fresh writer. -/
theorem c10_write_outcome_ignored_witness :
    (writeJSON ⟨[], none, [], false⟩ 204 [] []).2 = none :=
  c10_write_outcome_ignored.1 ⟨[], none, [], false⟩ 204 [] [] [ '{' , '}' ] rfl

/-! ### C9: lemmas about digits, escapes and whitespace in rendered output -/

/-- Rest streams that cannot extend a number token. -/
def noDigHead : List Char → Bool
  | [] => true
  | c :: _ => !c.isDigit

/-- The digit character of `k < 10` is a digit and carries `k`. -/
theorem digChar_spec (k : Nat) (h : k < 10) :
    (digChar k).isDigit = true ∧ (digChar k).toNat - 48 = k := by
  interval_cases k <;> exact ⟨by decide, by decide⟩

/-- The fuel of the digit renderer does not matter once above the value. -/
theorem natCharsAux_congr : ∀ f g n, n < f → n < g → natCharsAux f n = natCharsAux g n := by
  intro f
  induction f with
  | zero => omega
  | succ f ih =>
    intro g n hf hg
    cases g with
    | zero => omega
    | succ g =>
      simp only [natCharsAux]
      by_cases h10 : n < 10
      · simp [h10]
      · have hdiv : n / 10 < n := Nat.div_lt_self (by omega) (by omega)
        simp only [if_neg h10]
        rw [ih g (n / 10) (by omega) (by omega)]

/-- The recursion equation of the digit renderer, fuel hidden. -/
theorem natChars_unfold (n : Nat) :
    natChars n = if n < 10 then [digChar n] else natChars (n / 10) ++ [digChar (n % 10)] := by
  show natCharsAux (n + 1) n = _
  by_cases h10 : n < 10
  · simp [natCharsAux, h10]
  · have hdiv : n / 10 < n := Nat.div_lt_self (by omega) (by omega)
    simp only [natCharsAux, if_neg h10]
    rw [natCharsAux_congr n (n / 10 + 1) (n / 10) (by omega) (by omega)]
    rfl

/-- Rendered digits are digit characters. -/
theorem natChars_digits (n : Nat) : ∀ c ∈ natChars n, c.isDigit = true := by
  induction n using Nat.strongRecOn with
  | _ n ih =>
    rw [natChars_unfold]
    by_cases h10 : n < 10
    · simp only [if_pos h10, List.mem_singleton]
      rintro c rfl
      exact (digChar_spec n h10).1
    · simp only [if_neg h10, List.mem_append, List.mem_singleton]
      rintro c (hc | rfl)
      · exact ih (n / 10) (Nat.div_lt_self (by omega) (by omega)) c hc
      · exact (digChar_spec (n % 10) (Nat.mod_lt _ (by omega))).1

/-- A rendered digit run is never empty. -/
theorem natChars_ne_nil (n : Nat) : natChars n ≠ [] := by
  rw [natChars_unfold]
  by_cases h10 : n < 10 <;> simp [h10]

/-- A rendered digit run starts with a digit character. -/
theorem natChars_cons (n : Nat) : ∃ c t, natChars n = c :: t ∧ c.isDigit = true := by
  cases h : natChars n with
  | nil => exact absurd h (natChars_ne_nil n)
  | cons c t => exact ⟨c, t, rfl, natChars_digits n c (h ▸ List.mem_cons_self c t)⟩

/-- Folding the rendered digits back in base ten recovers the number. -/
theorem digitsNat_natChars (n : Nat) : digitsNat (natChars n) = n := by
  induction n using Nat.strongRecOn with
  | _ n ih =>
    rw [natChars_unfold]
    by_cases h10 : n < 10
    · simp only [if_pos h10, digitsNat, List.foldl_cons, List.foldl_nil]
      have := (digChar_spec n h10).2
      omega
    · simp only [if_neg h10, digitsNat, List.foldl_append, List.foldl_cons, List.foldl_nil]
      have h1 := ih (n / 10) (Nat.div_lt_self (by omega) (by omega))
      have h2 := (digChar_spec (n % 10) (Nat.mod_lt _ (by omega))).2
      simp only [digitsNat] at h1
      omega

/-- The digit scanner consumes exactly a digit run, stopping at the first
character that cannot extend it. -/
theorem grabDigits_run (ds : List Char) : ∀ (acc : Nat) (rest : List Char),
    (∀ c ∈ ds, c.isDigit = true) → noDigHead rest = true →
    grabDigits acc (ds ++ rest)
      = (ds.foldl (fun a c => a * 10 + (c.toNat - 48)) acc, rest) := by
  induction ds with
  | nil =>
    intro acc rest _ hrest
    cases rest with
    | nil => rfl
    | cons c t =>
      simp only [noDigHead, Bool.not_eq_eq_eq_not, Bool.not_true] at hrest
      simp [grabDigits, hrest]
  | cons c t ih =>
    intro acc rest hds hrest
    have hc := hds c (by simp)
    simp only [List.cons_append, grabDigits, hc, if_true, List.foldl_cons]
    exact ih _ rest (fun x hx => hds x (by simp [hx])) hrest

/-- The number scanner inverts the integer renderer. -/
theorem scanNum_render (i : Int) (rest : List Char) (hrest : noDigHead rest = true) :
    scanNum (intChars i ++ rest) = .ok (i, rest) := by
  by_cases hneg : i < 0
  · obtain ⟨c, t, hct, hc⟩ := natChars_cons i.natAbs
    have hgrab : grabDigits 0 (natChars i.natAbs ++ rest) = (i.natAbs, rest) := by
      rw [grabDigits_run (natChars i.natAbs) 0 rest (natChars_digits _) hrest]
      have := digitsNat_natChars i.natAbs
      simp only [digitsNat] at this
      rw [this]
    have harg : intChars i ++ rest = '-' :: (natChars i.natAbs ++ rest) := by
      simp [intChars, hneg]
    rw [harg, hct, List.cons_append]
    simp only [scanNum, List.cons_append]
    rw [← List.cons_append, ← hct, hgrab]
    simp [hc, abs_of_neg hneg]
  · obtain ⟨c, t, hct, hc⟩ := natChars_cons i.toNat
    obtain ⟨_, hminus⟩ := digit_not_sign hc
    have hgrab : grabDigits 0 (natChars i.toNat ++ rest) = (i.toNat, rest) := by
      rw [grabDigits_run (natChars i.toNat) 0 rest (natChars_digits _) hrest]
      have := digitsNat_natChars i.toNat
      simp only [digitsNat] at this
      rw [this]
    have harg : intChars i ++ rest = c :: (t ++ rest) := by
      simp [intChars, hneg, hct]
    rw [harg]
    simp only [scanNum, hminus, hc, if_true, if_false, Bool.false_eq_true]
    rw [← List.cons_append, ← hct, hgrab]
    simp
    omega

/-- The string scanner inverts the escaper up to the closing quote. -/
theorem scanStr_esc (s rest : List Char) :
    scanStr (escChars s ++ ('"' :: rest)) = .ok (s, rest) := by
  induction s with
  | nil =>
    show scanStr ('"' :: rest) = .ok ([], rest)
    rw [scanStr.eq_def]
    simp
  | cons c t ih =>
    by_cases hq : c = '"'
    · subst hq
      show scanStr ('\\' :: '"' :: (escChars t ++ ('"' :: rest))) = .ok ('"' :: t, rest)
      rw [scanStr.eq_def]
      simp [ih, unesc]
    · by_cases hb : c = '\\'
      · subst hb
        show scanStr ('\\' :: '\\' :: (escChars t ++ ('"' :: rest))) = .ok ('\\' :: t, rest)
        rw [scanStr.eq_def]
        simp [ih, unesc]
      · have hq2 : (c == '"') = false := beq_eq_false_iff_ne.mpr hq
        have hb2 : (c == '\\') = false := beq_eq_false_iff_ne.mpr hb
        have hesc : escChars (c :: t) ++ ('"' :: rest) = c :: (escChars t ++ ('"' :: rest)) := by
          simp [escChars, escChar, hq2, hb2]
        rw [hesc, scanStr.eq_def]
        simp [hq2, hb2, ih]

/-- The literal reader accepts its own literal. -/
theorem expectLit_run (lit rest : List Char) : expectLit lit (lit ++ rest) = .ok rest := by
  induction lit with
  | nil => rfl
  | cons l ls ih => simp [expectLit, ih]

/-- Indentation is whitespace. -/
theorem tabs_ws (d : Nat) : ∀ c ∈ tabs d, isWs c = true := by
  intro c hc
  have := List.eq_of_mem_replicate hc
  subst this
  decide

/-- A digit character is not whitespace. -/
theorem digit_not_ws {c : Char} (h : c.isDigit = true) : isWs c = false := by
  by_contra hws
  simp only [Bool.not_eq_false, isWs, Bool.or_eq_true, beq_iff_eq] at hws
  rcases hws with ((rfl | rfl) | rfl) | rfl <;> exact absurd h (by decide)

/-- A digit character is none of the structural characters the value
dispatcher looks for. -/
theorem digit_not_delims {c : Char} (h : c.isDigit = true) :
    (c == 'n') = false ∧ (c == 't') = false ∧ (c == 'f') = false ∧ (c == '"') = false ∧
    (c == '{') = false ∧ (c == '[') = false ∧ (c == ']') = false ∧ (c == '}') = false := by
  refine ⟨?_, ?_, ?_, ?_, ?_, ?_, ?_, ?_⟩ <;> refine beq_eq_false_iff_ne.mpr ?_ <;>
    (intro he; rw [he] at h; exact absurd h (by decide))

/-- Rendered output starts with a non-whitespace character that closes
neither an array nor an object. -/
theorem render_head (v : Json) (d : Nat) :
    ∃ c t, renderJson v d = c :: t ∧ isWs c = false
      ∧ (c == ']') = false ∧ (c == '}') = false := by
  cases v with
  | num i =>
    by_cases hneg : i < 0
    · exact ⟨'-', natChars i.natAbs, by simp [renderJson, intChars, hneg], rfl, rfl, rfl⟩
    · obtain ⟨c, t, hct, hc⟩ := natChars_cons i.toNat
      have hd := digit_not_delims hc
      exact ⟨c, t, by simp [renderJson, intChars, hneg, hct], digit_not_ws hc,
        hd.2.2.2.2.2.2.1, hd.2.2.2.2.2.2.2⟩
  | null => exact ⟨'n', _, rfl, rfl, rfl, rfl⟩
  | bool b =>
    cases b with
    | true => exact ⟨'t', _, rfl, rfl, rfl, rfl⟩
    | false => exact ⟨'f', _, rfl, rfl, rfl, rfl⟩
  | str s => exact ⟨'"', _, rfl, rfl, rfl, rfl⟩
  | arr xs =>
    cases xs with
    | nil => exact ⟨'[', _, rfl, rfl, rfl, rfl⟩
    | cons x t => exact ⟨'[', _, rfl, rfl, rfl, rfl⟩
  | obj ms =>
    cases ms with
    | nil => exact ⟨'{', _, rfl, rfl, rfl, rfl⟩
    | cons m t => exact ⟨'{', _, rfl, rfl, rfl, rfl⟩

/-- Skipping whitespace does not touch a non-whitespace head. -/
theorem dropWs_nonws {c : Char} (t : List Char) (h : isWs c = false) :
    dropWs (c :: t) = c :: t := by
  simp [dropWs, h]

/-- Skipping whitespace eats a run of tabs. -/
theorem dropWs_replicate_tab (d : Nat) (cs : List Char) :
    dropWs (List.replicate d '\t' ++ cs) = dropWs cs :=
  dropWs_ws_append _ (fun c hc => by rw [List.eq_of_mem_replicate hc]; decide) cs

/-- Skipping whitespace does not touch a rendered object member. -/
theorem dropWs_member (k : List Char) (v : Json) (d : Nat) (x : List Char) :
    dropWs (renderMember (k, v) d ++ x) = renderMember (k, v) d ++ x := by
  have hm : renderMember (k, v) d ++ x
      = '"' :: ((escChars k ++ '"' :: ':' :: ' ' :: renderJson v d) ++ x) := by
    simp [renderMember]
  rw [hm]
  exact dropWs_nonws _ (by decide)

/-- Skipping whitespace does not touch rendered output. -/
theorem dropWs_render (v : Json) (d : Nat) (x : List Char) :
    dropWs (renderJson v d ++ x) = renderJson v d ++ x := by
  obtain ⟨c, t, hct, hws, _, _⟩ := render_head v d
  rw [hct, List.cons_append]
  exact dropWs_nonws _ hws

theorem rt_all : ∀ f : Nat,
    (∀ (v : Json) (d : Nat) (pre rest : List Char), (∀ c ∈ pre, isWs c = true) →
       (renderJson v d).length < f → noDigHead rest = true →
       parseVal f (pre ++ (renderJson v d ++ rest)) = .ok (v, rest)) ∧
    (∀ (x : Json) (xs : List Json) (d : Nat) (pre rest : List Char),
       (∀ c ∈ pre, isWs c = true) →
       (renderJson x (d + 1)).length + (renderMoreA xs (d + 1)).length + 1 < f →
       parseItems f (pre ++ (renderJson x (d + 1) ++ (renderMoreA xs (d + 1)
         ++ ('\n' :: (tabs d ++ (']' :: rest)))))) = .ok (x :: xs, rest)) ∧
    (∀ (k : List Char) (v : Json) (ms : List (List Char × Json)) (d : Nat)
       (pre rest : List Char), (∀ c ∈ pre, isWs c = true) →
       (renderMember (k, v) (d + 1)).length + (renderMoreO ms (d + 1)).length + 1 < f →
       parseMems f (pre ++ (renderMember (k, v) (d + 1) ++ (renderMoreO ms (d + 1)
         ++ ('\n' :: (tabs d ++ ('}' :: rest)))))) = .ok ((k, v) :: ms, rest)) := by
  intro f
  induction f with
  | zero =>
    exact ⟨fun v d pre rest _ h _ => absurd h (by omega),
           fun x xs d pre rest _ h => absurd h (by omega),
           fun k v ms d pre rest _ h => absurd h (by omega)⟩
  | succ f ih =>
    obtain ⟨ihV, ihA, ihM⟩ := ih
    refine ⟨?_, ?_, ?_⟩
    · intro v d pre rest hpre hlen hrest
      cases v with
      | null =>
        simp [parseVal, renderJson, dropWs_ws_append pre hpre, dropWs, isWs, expectLit]
      | bool b =>
        cases b with
        | true => simp [parseVal, renderJson, dropWs_ws_append pre hpre, dropWs, isWs, expectLit]
        | false => simp [parseVal, renderJson, dropWs_ws_append pre hpre, dropWs, isWs, expectLit]
      | str s =>
        have harg : renderJson (.str s) d ++ rest = '"' :: (escChars s ++ ('"' :: rest)) := by
          simp [renderJson]
        rw [harg]
        simp [parseVal, dropWs_ws_append pre hpre, dropWs, isWs, scanStr_esc]
      | num i =>
        by_cases hneg : i < 0
        · have hnum := scanNum_render i rest hrest
          have harg2 : intChars i ++ rest = '-' :: (natChars i.natAbs ++ rest) := by
            simp [intChars, hneg]
          have harg : renderJson (.num i) d ++ rest = '-' :: (natChars i.natAbs ++ rest) := by
            simp [renderJson, intChars, hneg]
          rw [harg2] at hnum
          rw [harg]
          simp [parseVal, dropWs_ws_append pre hpre, dropWs, isWs, hnum]
        · obtain ⟨c, t, hct, hc⟩ := natChars_cons i.toNat
          obtain ⟨hplus, hminus⟩ := digit_not_sign hc
          obtain ⟨hn, ht, hf2, hq, hbo, hbk, _, _⟩ := digit_not_delims hc
          have hw := digit_not_ws hc
          have hnum := scanNum_render i rest hrest
          have harg2 : intChars i ++ rest = c :: (t ++ rest) := by
            simp [intChars, hneg, hct]
          have harg : renderJson (.num i) d ++ rest = c :: (t ++ rest) := by
            simp [renderJson, intChars, hneg, hct]
          rw [harg2] at hnum
          rw [harg]
          simp [parseVal, dropWs_ws_append pre hpre, dropWs_nonws (t ++ rest) hw,
            hn, ht, hf2, hq, hbo, hbk, hminus, hc, hnum]
      | arr xs =>
        cases xs with
        | nil =>
          simp [parseVal, renderJson, dropWs_ws_append pre hpre, dropWs, isWs]
        | cons x xs =>
          obtain ⟨c2, t2, hct2, hw2, hbr2, hbc2⟩ := render_head x (d + 1)
          have hlen2 : (renderJson x (d + 1)).length + (renderMoreA xs (d + 1)).length + 1 < f := by
            simp only [renderJson, List.length_cons, List.length_append, tabs,
              List.length_replicate] at hlen
            omega
          have hA := ihA x xs d [] rest (by simp) hlen2
          simp only [List.nil_append] at hA
          have harg : renderJson (.arr (x :: xs)) d ++ rest
              = '[' :: ('\n' :: (tabs (d + 1) ++ (renderJson x (d + 1) ++ (renderMoreA xs (d + 1)
                  ++ ('\n' :: (tabs d ++ (']' :: rest))))))) := by
            simp [renderJson]
          rw [harg]
          simp only [parseVal]
          rw [dropWs_ws_append pre hpre, dropWs_nonws _ (by decide : isWs '[' = false)]
          simp only [(by decide : ('[' == 'n') = false), (by decide : ('[' == 't') = false),
            (by decide : ('[' == 'f') = false), (by decide : ('[' == '"') = false),
            (by decide : ('[' == '{') = false), (by decide : ('[' == '[') = true),
            Bool.false_eq_true, if_false, if_true]
          rw [show dropWs ('\n' :: (tabs (d + 1) ++ (renderJson x (d + 1) ++ (renderMoreA xs (d + 1)
                ++ ('\n' :: (tabs d ++ (']' :: rest)))))))
              = renderJson x (d + 1) ++ (renderMoreA xs (d + 1)
                ++ ('\n' :: (tabs d ++ (']' :: rest)))) from by
            simp [dropWs, isWs, dropWs_replicate_tab, dropWs_render]]
          rw [hct2, List.cons_append]
          simp only [hbr2, Bool.false_eq_true, if_false]
          rw [← List.cons_append, ← hct2, hA]
      | obj ms =>
        cases ms with
        | nil =>
          simp [parseVal, renderJson, dropWs_ws_append pre hpre, dropWs, isWs]
        | cons m ms =>
          obtain ⟨k, v⟩ := m
          have hlen2 : (renderMember (k, v) (d + 1)).length
              + (renderMoreO ms (d + 1)).length + 1 < f := by
            simp only [renderJson, List.length_cons, List.length_append, tabs,
              List.length_replicate] at hlen
            omega
          have hM := ihM k v ms d [] rest (by simp) hlen2
          simp only [List.nil_append] at hM
          have harg : renderJson (.obj ((k, v) :: ms)) d ++ rest
              = '{' :: ('\n' :: (tabs (d + 1) ++ (renderMember (k, v) (d + 1)
                  ++ (renderMoreO ms (d + 1) ++ ('\n' :: (tabs d ++ ('}' :: rest))))))) := by
            simp [renderJson]
          rw [harg]
          simp only [parseVal]
          rw [dropWs_ws_append pre hpre, dropWs_nonws _ (by decide : isWs '{' = false)]
          simp only [(by decide : ('{' == 'n') = false), (by decide : ('{' == 't') = false),
            (by decide : ('{' == 'f') = false), (by decide : ('{' == '"') = false),
            (by decide : ('{' == '{') = true), Bool.false_eq_true, if_false, if_true]
          have hm : renderMember (k, v) (d + 1)
                ++ (renderMoreO ms (d + 1) ++ ('\n' :: (tabs d ++ ('}' :: rest))))
              = '"' :: (escChars k ++ ('"' :: (':' :: (' ' :: (renderJson v (d + 1)
                  ++ (renderMoreO ms (d + 1) ++ ('\n' :: (tabs d ++ ('}' :: rest))))))))) := by
            simp [renderMember]
          rw [show dropWs ('\n' :: (tabs (d + 1) ++ (renderMember (k, v) (d + 1)
                ++ (renderMoreO ms (d + 1) ++ ('\n' :: (tabs d ++ ('}' :: rest)))))))
              = '"' :: (escChars k ++ ('"' :: (':' :: (' ' :: (renderJson v (d + 1)
                  ++ (renderMoreO ms (d + 1) ++ ('\n' :: (tabs d ++ ('}' :: rest))))))))) from by
            simp [dropWs, isWs, tabs, dropWs_replicate_tab, renderMember]]
          simp only [(by decide : ('"' == '}') = false), Bool.false_eq_true, if_false]
          rw [← hm, hM]
    · intro x xs d pre rest hpre hlen
      have hnd : noDigHead (renderMoreA xs (d + 1)
          ++ ('\n' :: (tabs d ++ (']' :: rest)))) = true := by
        cases xs with
        | nil => simp only [renderMoreA, List.nil_append, noDigHead]; decide
        | cons y ys => simp only [renderMoreA, List.cons_append, noDigHead]; decide
      have hV := ihV x (d + 1) pre
        (renderMoreA xs (d + 1) ++ ('\n' :: (tabs d ++ (']' :: rest)))) hpre (by omega) hnd
      simp only [parseItems]
      rw [hV]
      cases xs with
      | nil =>
        have hdw : dropWs (renderMoreA ([] : List Json) (d + 1)
            ++ ('\n' :: (tabs d ++ (']' :: rest)))) = ']' :: rest := by
          simp [renderMoreA, dropWs, isWs, tabs, dropWs_replicate_tab]
        simp [hdw]
      | cons y ys =>
        have hmA : renderMoreA (y :: ys) (d + 1) ++ ('\n' :: (tabs d ++ (']' :: rest)))
            = ',' :: ('\n' :: (tabs (d + 1) ++ (renderJson y (d + 1) ++ (renderMoreA ys (d + 1)
                ++ ('\n' :: (tabs d ++ (']' :: rest))))))) := by
          simp [renderMoreA]
        have hdw : dropWs (renderMoreA (y :: ys) (d + 1) ++ ('\n' :: (tabs d ++ (']' :: rest))))
            = ',' :: ('\n' :: (tabs (d + 1) ++ (renderJson y (d + 1) ++ (renderMoreA ys (d + 1)
                ++ ('\n' :: (tabs d ++ (']' :: rest))))))) := by
          rw [hmA]
          exact dropWs_nonws _ (by decide)
        have hpre2 : ∀ c ∈ '\n' :: tabs (d + 1), isWs c = true := by
          intro c hc
          rcases List.mem_cons.mp hc with rfl | hc
          · decide
          · exact tabs_ws _ c hc
        have hlen3 : (renderJson y (d + 1)).length + (renderMoreA ys (d + 1)).length + 1 < f := by
          simp only [renderMoreA, List.length_cons, List.length_append, tabs,
            List.length_replicate] at hlen
          omega
        have hA := ihA y ys d ('\n' :: tabs (d + 1)) rest hpre2 hlen3
        simp only [List.cons_append] at hA
        simp [hdw, hA]
    · intro k v ms d pre rest hpre hlen
      have hm : renderMember (k, v) (d + 1)
            ++ (renderMoreO ms (d + 1) ++ ('\n' :: (tabs d ++ ('}' :: rest))))
          = '"' :: (escChars k ++ ('"' :: (':' :: (' ' :: (renderJson v (d + 1)
              ++ (renderMoreO ms (d + 1) ++ ('\n' :: (tabs d ++ ('}' :: rest))))))))) := by
        simp [renderMember]
      have hnd : noDigHead (renderMoreO ms (d + 1)
          ++ ('\n' :: (tabs d ++ ('}' :: rest)))) = true := by
        cases ms with
        | nil => simp only [renderMoreO, List.nil_append, noDigHead]; decide
        | cons m2 ms2 => simp only [renderMoreO, List.cons_append, noDigHead]; decide
      have hlenv : (renderJson v (d + 1)).length < f := by
        simp only [renderMember, List.length_cons, List.length_append] at hlen
        omega
      have hV := ihV v (d + 1) [ ' ' ]
        (renderMoreO ms (d + 1) ++ ('\n' :: (tabs d ++ ('}' :: rest))))
        (by intro c hc; rw [List.mem_singleton] at hc; subst hc; decide) hlenv hnd
      simp only [List.cons_append, List.nil_append] at hV
      simp only [parseMems]
      rw [dropWs_ws_append pre hpre, hm, dropWs_nonws _ (by decide : isWs '"' = false)]
      cases ms with
      | nil =>
        have hdw : dropWs (renderMoreO ([] : List (List Char × Json)) (d + 1)
            ++ ('\n' :: (tabs d ++ ('}' :: rest)))) = '}' :: rest := by
          simp [renderMoreO, dropWs, isWs, tabs, dropWs_replicate_tab]
        simp [scanStr_esc, dropWs, isWs, dropWs_ws_append (tabs d) (tabs_ws d),
          dropWs_replicate_tab, hV, hdw]
      | cons m2 ms2 =>
        obtain ⟨k2, v2⟩ := m2
        have hmO : renderMoreO ((k2, v2) :: ms2) (d + 1) ++ ('\n' :: (tabs d ++ ('}' :: rest)))
            = ',' :: ('\n' :: (tabs (d + 1) ++ (renderMember (k2, v2) (d + 1)
                ++ (renderMoreO ms2 (d + 1) ++ ('\n' :: (tabs d ++ ('}' :: rest))))))) := by
          simp [renderMoreO]
        have hdw : dropWs (renderMoreO ((k2, v2) :: ms2) (d + 1)
            ++ ('\n' :: (tabs d ++ ('}' :: rest))))
            = ',' :: ('\n' :: (tabs (d + 1) ++ (renderMember (k2, v2) (d + 1)
                ++ (renderMoreO ms2 (d + 1) ++ ('\n' :: (tabs d ++ ('}' :: rest))))))) := by
          rw [hmO]
          exact dropWs_nonws _ (by decide)
        have hpre2 : ∀ c ∈ '\n' :: tabs (d + 1), isWs c = true := by
          intro c hc
          rcases List.mem_cons.mp hc with rfl | hc
          · decide
          · exact tabs_ws _ c hc
        have hlen3 : (renderMember (k2, v2) (d + 1)).length
            + (renderMoreO ms2 (d + 1)).length + 1 < f := by
          simp only [renderMoreO, List.length_cons, List.length_append, tabs,
            List.length_replicate] at hlen
          omega
        have hM := ihM k2 v2 ms2 d ('\n' :: tabs (d + 1)) rest hpre2 hlen3
        simp only [List.cons_append] at hM
        simp [scanStr_esc, dropWs, isWs, dropWs_ws_append (tabs d) (tabs_ws d),
          dropWs_replicate_tab, hV, hdw, hM]

/-- Inserting a pair permutes with putting it in front. -/
theorem insertPair_perm (p : List Char × Json) (l : List (List Char × Json)) :
    (insertPair p l).Perm (p :: l) := by
  induction l with
  | nil => exact List.Perm.refl _
  | cons q qs ih =>
    simp only [insertPair]
    split
    · exact List.Perm.refl _
    · exact (ih.cons q).trans (List.Perm.swap p q qs)

/-- The key sort is a permutation. -/
theorem sortPairs_perm (l : List (List Char × Json)) : (sortPairs l).Perm l := by
  induction l with
  | nil => exact List.Perm.refl _
  | cons p ps ih => exact (insertPair_perm p (sortPairs ps)).trans (ih.cons p)

/-- C9: for every envelope that serializes, parsing the body bytes the
encoder produced (plus the trailing newline writeJSON appends) with the
generic JSON parser gives back exactly the rendered object, whose pairs
are a permutation of the envelope pairs: the decoded mapping is
structurally equivalent to the envelope up to key order. -/
theorem c9_round_trip (env : Envelope) (js : List Char)
    (h : marshalEnvelope env = some js) :
    ∃ ps, envPairs env = some ps ∧
      jsonParse (js ++ [ '\n' ]) = some (Json.obj (sortPairs ps)) ∧
      (sortPairs ps).Perm ps := by
  unfold marshalEnvelope at h
  cases hp : envPairs env with
  | none => rw [hp] at h; exact absurd h (by simp)
  | some ps =>
    rw [hp] at h
    simp only [Option.some.injEq] at h
    subst h
    refine ⟨ps, rfl, ?_, sortPairs_perm ps⟩
    set v : Json := Json.obj (sortPairs ps) with hv
    obtain ⟨c, t, hct, hws, _, _⟩ := render_head v 0
    have hfuel : (renderJson v 0).length < (renderJson v 0 ++ [ '\n' ]).length + 1 := by
      simp only [List.length_append, List.length_cons, List.length_nil]
      omega
    have hparse := (rt_all ((renderJson v 0 ++ [ '\n' ]).length + 1)).1 v 0 [] [ '\n' ]
      (by simp) hfuel (by decide)
    simp only [List.nil_append] at hparse
    unfold jsonParse decodeValue
    rw [show dropWs (renderJson v 0 ++ [ '\n' ]) = renderJson v 0 ++ [ '\n' ] from
      dropWs_render v 0 [ '\n' ]]
    rw [hct, List.cons_append]
    have hstep : parseVal ((c :: (t ++ [ '\n' ])).length + 1) (c :: (t ++ [ '\n' ]))
        = .ok (v, [ '\n' ]) := by
      rw [← List.cons_append, ← hct]
      exact hparse
    simp only [List.length_cons, List.length_append, List.length_nil] at hstep
    simp [hstep, dropWs, isWs]

/-- C9 at a one-field envelope. -/
theorem c9_round_trip_witness :
    ∃ ps, envPairs [ ( [ 'o' , 'k' ] , GoVal.js (Json.str [ 'y' , 'e' , 's' ]) ) ] = some ps ∧
      jsonParse ((marshalEnvelope
          [ ( [ 'o' , 'k' ] , GoVal.js (Json.str [ 'y' , 'e' , 's' ]) ) ]).getD [] ++ [ '\n' ])
        = some (Json.obj (sortPairs ps)) ∧
      (sortPairs ps).Perm ps :=
  c9_round_trip [ ( [ 'o' , 'k' ] , GoVal.js (Json.str [ 'y' , 'e' , 's' ]) ) ]
    ((marshalEnvelope [ ( [ 'o' , 'k' ] , GoVal.js (Json.str [ 'y' , 'e' , 's' ]) ) ]).getD [])
    rfl

end Greenlight
